import Mathlib

/-!
# Verification of the stocko portfolio tracker

Shallow embedding of `src/main.rs` of the `stocko` command-line portfolio
tracker, together with theorems settling the specification claims.

Modelling conventions:
* Rust `i32` share counts become `ℤ` and `f64` prices become `ℚ`
  (the claims are about the arithmetic structure, not float rounding);
  `u32` error payloads become `ℕ`.
* `HashMap<String, Stock>` becomes an association list with
  overwrite-on-insert semantics (`insertKey` / `removeKey` / `getKey?`).
* A Rust panic (`unwrap` on `None`) is modelled as an outer `Option.none`.
* External effects are parameters: the quote fetch outcome of
  `fetch_symbol_time_series` is an `Except String Unit` argument, the
  persisted file is an `Option String` argument and JSON deserialization a
  `String → Except String StockCollections` argument.
* `load_data` / `save_data` bracket every command: a command function that
  returns `Except.ok c'` models a run that ends in `save_data(c')`, and an
  `Except.error e` result models a run that returns before `save_data`,
  leaving the persisted store untouched.
-/

namespace Stocko

instance {ε α : Type} [DecidableEq ε] [DecidableEq α] : DecidableEq (Except ε α) := fun
  | .error e, .error e' =>
    if h : e = e' then isTrue (by rw [h]) else isFalse (by intro hh; cases hh; exact h rfl)
  | .error _, .ok _ => isFalse (by intro hh; cases hh)
  | .ok _, .error _ => isFalse (by intro hh; cases hh)
  | .ok a, .ok a' =>
    if h : a = a' then isTrue (by rw [h]) else isFalse (by intro hh; cases hh; exact h rfl)

/-- Rust's `str::to_uppercase`, as a character-wise map (tickers and
exchange codes are ASCII). -/
def to_uppercase (s : String) : String := ⟨s.data.map Char.toUpper⟩

/-- Rust's `str::to_lowercase`. -/
def to_lowercase (s : String) : String := ⟨s.data.map Char.toLower⟩

/-- The `StockoError` enum from `src/main.rs`. -/
inductive StockoError
  | saveDataError (cause : String)
  | readDataError (cause : String)
  | alphaVantageError (cause : String)
  | invalidExchange
  | invalidShareQuantity (symbol : String) (shares : ℕ)
deriving DecidableEq

/-- The `Exchange` enum from `src/main.rs`. -/
inductive Exchange
  | TSX
  | TSXV
  | NYSE
deriving DecidableEq

/-- `Exchange::from_symbol`: case-insensitive match on `tsx` / `tsxv` /
`nsye`; `None` defaults to `NYSE`. -/
def Exchange.from_symbol : Option String → Except StockoError Exchange
  | some s =>
    if to_lowercase s = "tsx" then .ok .TSX
    else if to_lowercase s = "tsxv" then .ok .TSXV
    else if to_lowercase s = "nsye" then .ok .NYSE
    else .error .invalidExchange
  | none => .ok .NYSE

/-- `suffix_for_exchange_symbol`: the venue suffix appended to the ticker,
case-insensitive on the exchange code. -/
def suffix_for_exchange_symbol (exchange_symbol : String) : Except StockoError String :=
  if to_lowercase exchange_symbol = "tsx" then .ok ".TO"
  else if to_lowercase exchange_symbol = "tsxv" then .ok ".V"
  else if to_lowercase exchange_symbol = "nsye" then .ok ""
  else .error .invalidExchange

/-- The symbol-suffix step of `main`: when an exchange code is given, the
resolved suffix is appended to the ticker; an omitted code appends nothing. -/
def resolve_symbol (symbol : String) : Option String → Except StockoError String
  | none => .ok symbol
  | some ex =>
    match suffix_for_exchange_symbol ex with
    | .error e => .error e
    | .ok suf => .ok (symbol ++ suf)

/-- The `Order` struct: a signed share count (positive = buy, negative =
sell) and a share price. -/
structure Order where
  shares : ℤ
  share_price : ℚ
deriving DecidableEq

/-- The `Stock` struct (a position): symbol, exchange, order ledger, and the
transient non-persisted `price` field (serde default `0.0`). -/
structure Stock where
  symbol : String
  exchange : Exchange
  orders : List Order
  price : ℚ
deriving DecidableEq

/-- The `OrderMetrics` struct. -/
structure OrderMetrics where
  total_spent : ℚ
  total_shares : ℤ
  average_price : ℚ
  total_sell : ℚ
deriving DecidableEq

/-- `Stock::calculate_order_metrics`: folds over the order ledger exactly as
the Rust code does. (`ℚ` division by zero yields 0 where Rust's `f64`
division by zero yields NaN/∞; in both cases the function is total.) -/
def Stock.calculate_order_metrics (s : Stock) : OrderMetrics :=
  let total_spent : ℚ :=
    (s.orders.filter (fun x => 0 < x.shares)).foldl
      (fun acc x => acc + (x.shares : ℚ) * x.share_price) 0
  let total_sell : ℚ :=
    (s.orders.filter (fun x => x.shares < 0)).foldl
      (fun acc x => acc + ((|x.shares| : ℤ) : ℚ) * x.share_price) 0
  let total_shares : ℤ := s.orders.foldl (fun acc x => acc + x.shares) 0
  let average_price : ℚ := total_spent / (total_shares : ℚ)
  { total_spent, total_shares, average_price, total_sell }

/-- Lookup in an association-list map, first matching key wins
(`HashMap::get`). -/
def getKey? (k : String) : List (String × Stock) → Option Stock
  | [] => none
  | (k', v) :: rest => if k' = k then some v else getKey? k rest

/-- `HashMap::contains_key`. -/
def containsKey (k : String) (m : List (String × Stock)) : Bool :=
  (getKey? k m).isSome

/-- `HashMap::insert`: overwrite the binding for `k` if present, otherwise
add one. -/
def insertKey (k : String) (v : Stock) : List (String × Stock) → List (String × Stock)
  | [] => [(k, v)]
  | (k', v') :: rest => if k' = k then (k, v) :: rest else (k', v') :: insertKey k v rest

/-- `HashMap::remove`. -/
def removeKey (k : String) : List (String × Stock) → List (String × Stock)
  | [] => []
  | (k', v') :: rest => if k' = k then rest else (k', v') :: removeKey k rest

/-- The `StockCollections` struct: the three buckets of the persisted
store. -/
structure StockCollections where
  portfolio : List (String × Stock)
  watchlist : List (String × Stock)
  archive : List (String × Stock)
deriving DecidableEq

/-- `StockCollections::new()`: all three buckets empty. -/
def StockCollections.new : StockCollections :=
  { portfolio := [], watchlist := [], archive := [] }

/-- `process_order` from `src/main.rs`, acting on an explicit store value in
place of the load/save bracket. The outer `Option` models the
`collection.portfolio.get(&symbol).unwrap()` panic; `some (.error e)` models
an early `Err` return (no save, store untouched); `some (.ok c')` models a
run that reaches `save_data` with store `c'`. -/
def process_order (collection : StockCollections) (symbol : String)
    (exchange_symbol : Option String) (shares : ℤ) (price : ℚ) :
    Option (Except StockoError StockCollections) :=
  let afterInsert : Except StockoError StockCollections :=
    if containsKey symbol collection.portfolio then .ok collection
    else if 0 < shares then
      match Exchange.from_symbol exchange_symbol with
      | .error e => .error e
      | .ok ex =>
        .ok { collection with
              portfolio := insertKey (to_uppercase symbol)
                { symbol := (to_uppercase symbol), exchange := ex, orders := [], price := 0 }
                collection.portfolio }
    else .error (.invalidShareQuantity symbol shares.natAbs)
  match afterInsert with
  | .error e => some (.error e)
  | .ok collection =>
    match getKey? symbol collection.portfolio with
    | none => none
    | some stock =>
      let total_shares := stock.calculate_order_metrics.total_shares
      if shares < 0 ∧ total_shares < |shares| then
        some (.error (.invalidShareQuantity symbol shares.natAbs))
      else
        let stock' : Stock :=
          { stock with orders := stock.orders ++ [{ shares := shares, share_price := price }] }
        if shares < 0 ∧ total_shares = |shares| then
          some (.ok { collection with
                      portfolio := removeKey symbol collection.portfolio,
                      archive := insertKey symbol stock' collection.archive })
        else
          some (.ok { collection with
                      portfolio := insertKey symbol stock' collection.portfolio })

/-- `watch` from `src/main.rs`. `fetchResult` is the outcome of the probe
call `fetch_symbol_time_series(symbol)`; on fetch failure the command
returns before any mutation or save. -/
def watch (collections : StockCollections) (symbol : String)
    (exchange_symbol : Option String) (fetchResult : Except String Unit) :
    Except StockoError StockCollections :=
  match fetchResult with
  | .error e => .error (.alphaVantageError e)
  | .ok _ =>
    match Exchange.from_symbol exchange_symbol with
    | .error e => .error e
    | .ok ex =>
      .ok { collections with
            watchlist := insertKey (to_uppercase symbol)
              { symbol := (to_uppercase symbol), exchange := ex, orders := [], price := 0 }
              collections.watchlist }

/-- The `StockMetrics` struct. -/
structure StockMetrics where
  change : ℚ
  change_percentage : ℚ
  close_today : ℚ
  close_yesterday : ℚ
deriving DecidableEq

/-- `calculate_stock_metrics`: takes the second-to-last and last entries of
the chronologically ordered `(date, close)` series. With fewer than two
entries the Rust code panics (`usize` underflow / `unwrap` on `None`),
modelled as `none`. -/
def calculate_stock_metrics (entries : List (String × ℚ)) : Option StockMetrics :=
  if entries.length < 2 then none
  else
    match entries.get? (entries.length - 2), entries.get? (entries.length - 1) with
    | some (_, close_yesterday), some (_, close_today) =>
      some { change := close_today - close_yesterday,
             change_percentage := 100 * (close_today - close_yesterday) / close_yesterday,
             close_today, close_yesterday }
    | _, _ => none

/-- `load_data`: `file` is the persisted file's contents (`none` = the file
does not exist), `deserialize` models `serde_json::from_str`. -/
def load_data (file : Option String)
    (deserialize : String → Except String StockCollections) :
    Except StockoError StockCollections :=
  match file with
  | none => .ok StockCollections.new
  | some contents =>
    match deserialize contents with
    | .error e => .error (.readDataError e)
    | .ok c => .ok c

/-- The store invariant of §3 of the spec: portfolio positions have a
strictly positive net share count (signed sum of the ledger), archived
positions net to zero, and watchlist positions have no orders. -/
def Invariant (c : StockCollections) : Prop :=
  (∀ p ∈ c.portfolio, 0 < ((p.2.orders.map Order.shares).sum : ℤ))
  ∧ (∀ p ∈ c.archive, ((p.2.orders.map Order.shares).sum : ℤ) = 0)
  ∧ (∀ p ∈ c.watchlist, p.2.orders = [])

/-- Store states reachable from the empty store by successful `process_order`
and `watch` commands. -/
inductive Reachable : StockCollections → Prop
  | init : Reachable StockCollections.new
  | order {c c' : StockCollections} {symbol : String} {exs : Option String}
      {shares : ℤ} {price : ℚ} :
      Reachable c → process_order c symbol exs shares price = some (.ok c') →
      Reachable c'
  | watchStep {c c' : StockCollections} {symbol : String} {exs : Option String}
      {f : Except String Unit} :
      Reachable c → watch c symbol exs f = .ok c' → Reachable c'

/-! ## Helper lemmas -/

theorem foldl_add_map {M : Type} [AddCommMonoid M] (f : Order → M) (l : List Order) :
    ∀ a : M, l.foldl (fun acc x => acc + f x) a = a + (l.map f).sum := by
  induction l with
  | nil => intro a; simp
  | cons x xs ih => intro a; simp [ih, add_assoc]

theorem total_shares_eq_sum (s : Stock) :
    s.calculate_order_metrics.total_shares = (s.orders.map Order.shares).sum := by
  simp [Stock.calculate_order_metrics, foldl_add_map]

theorem total_shares_append (st : Stock) (o : Order) :
    (Stock.calculate_order_metrics { st with orders := st.orders ++ [o] }).total_shares
      = st.calculate_order_metrics.total_shares + o.shares := by
  simp [total_shares_eq_sum]

theorem getKey?_insertKey_self (k : String) (v : Stock) (m : List (String × Stock)) :
    getKey? k (insertKey k v m) = some v := by
  induction m with
  | nil => simp [insertKey, getKey?]
  | cons p rest ih =>
    obtain ⟨k', v'⟩ := p
    by_cases h : k' = k
    · simp [insertKey, getKey?, h]
    · simp [insertKey, getKey?, h, ih]

theorem getKey?_insertKey_of_ne {k k' : String} (h : k' ≠ k) (v : Stock)
    (m : List (String × Stock)) :
    getKey? k (insertKey k' v m) = getKey? k m := by
  induction m with
  | nil => simp [insertKey, getKey?, h]
  | cons p rest ih =>
    obtain ⟨k'', v''⟩ := p
    by_cases h2 : k'' = k'
    · subst h2; simp [insertKey, getKey?, h, ih]
    · by_cases h3 : k'' = k
      · subst h3; simp [insertKey, getKey?, h2, Ne.symm h]
      · simp [insertKey, getKey?, h2, h3, ih]

theorem insertKey_insertKey (k : String) (v w : Stock) (m : List (String × Stock)) :
    insertKey k v (insertKey k w m) = insertKey k v m := by
  induction m with
  | nil => simp [insertKey]
  | cons p rest ih =>
    obtain ⟨k', v'⟩ := p
    by_cases h : k' = k
    · simp [insertKey, h]
    · simp [insertKey, h, ih]

theorem mem_insertKey {p : String × Stock} {k : String} {v : Stock}
    {m : List (String × Stock)} (h : p ∈ insertKey k v m) : p = (k, v) ∨ p ∈ m := by
  induction m with
  | nil => simpa [insertKey] using h
  | cons q rest ih =>
    obtain ⟨k', v'⟩ := q
    by_cases h2 : k' = k
    · simp [insertKey, h2] at h
      rcases h with h | h
      · exact Or.inl (by simp [h])
      · exact Or.inr (by simp [h])
    · simp [insertKey, h2] at h
      rcases h with h | h
      · exact Or.inr (by simp [h])
      · rcases ih h with h3 | h3
        · exact Or.inl h3
        · exact Or.inr (by simp [h3])

theorem mem_removeKey {p : String × Stock} {k : String} {m : List (String × Stock)}
    (h : p ∈ removeKey k m) : p ∈ m := by
  induction m with
  | nil => simp [removeKey] at h
  | cons q rest ih =>
    obtain ⟨k', v'⟩ := q
    by_cases h2 : k' = k
    · simp [removeKey, h2] at h
      exact List.mem_cons_of_mem _ h
    · simp [removeKey, h2] at h
      rcases h with h | h
      · simp [h]
      · exact List.mem_cons_of_mem _ (ih h)

theorem getKey?_mem {k : String} {m : List (String × Stock)} {v : Stock}
    (h : getKey? k m = some v) : (k, v) ∈ m := by
  induction m with
  | nil => simp [getKey?] at h
  | cons q rest ih =>
    obtain ⟨k', v'⟩ := q
    by_cases h2 : k' = k
    · subst h2
      simp [getKey?] at h
      simp [h]
    · simp [getKey?, h2] at h
      exact List.mem_cons_of_mem _ (ih h)

theorem getKey?_of_containsKey_false {k : String} {m : List (String × Stock)}
    (h : containsKey k m = false) : getKey? k m = none := by
  cases hg : getKey? k m with
  | none => rfl
  | some v => simp [containsKey, hg] at h

theorem containsKey_some {k : String} {m : List (String × Stock)}
    (h : containsKey k m = true) : ∃ v, getKey? k m = some v := by
  cases hg : getKey? k m with
  | none => simp [containsKey, hg] at h
  | some v => exact ⟨v, rfl⟩

/-- Case analysis for a successful `process_order` run: either the symbol was
already in the portfolio and the appended ledger went to the archive
(exact-zero sell) or back to the portfolio, or the symbol was absent and a
fresh single-order position was created. -/
theorem process_order_ok_cases {c c' : StockCollections} {symbol : String}
    {exs : Option String} {shares : ℤ} {price : ℚ}
    (h : process_order c symbol exs shares price = some (.ok c')) :
    (∃ st : Stock, getKey? symbol c.portfolio = some st ∧
      ¬(shares < 0 ∧ st.calculate_order_metrics.total_shares < |shares|) ∧
      ((shares < 0 ∧ st.calculate_order_metrics.total_shares = |shares|) →
        c' = { c with
               portfolio := removeKey symbol c.portfolio,
               archive := insertKey symbol
                 { st with orders := st.orders ++ [{ shares := shares, share_price := price }] }
                 c.archive }) ∧
      (¬(shares < 0 ∧ st.calculate_order_metrics.total_shares = |shares|) →
        c' = { c with
               portfolio := insertKey symbol
                 { st with orders := st.orders ++ [{ shares := shares, share_price := price }] }
                 c.portfolio }))
    ∨ (containsKey symbol c.portfolio = false ∧ 0 < shares ∧ to_uppercase symbol = symbol ∧
      ∃ ex : Exchange, Exchange.from_symbol exs = .ok ex ∧
        c' = { c with
               portfolio := insertKey symbol
                 { symbol := symbol, exchange := ex,
                   orders := [{ shares := shares, share_price := price }], price := 0 }
                 c.portfolio }) := by
  by_cases hcont : containsKey symbol c.portfolio = true
  · obtain ⟨st, hst⟩ := containsKey_some hcont
    left
    refine ⟨st, hst, ?_⟩
    simp only [process_order, hcont, if_true, hst] at h
    by_cases h1 : shares < 0 ∧ st.calculate_order_metrics.total_shares < |shares|
    · simp [h1] at h
    · by_cases h2 : shares < 0 ∧ st.calculate_order_metrics.total_shares = |shares|
      · simp only [h1, if_false, h2, if_true] at h
        simp at h
        exact ⟨h1, fun _ => h.symm, fun hn => absurd h2 hn⟩
      · simp only [h1, if_false, h2] at h
        simp at h
        exact ⟨h1, fun hz => absurd hz h2, fun _ => h.symm⟩
  · have hcf : containsKey symbol c.portfolio = false := by
      cases hb : containsKey symbol c.portfolio
      · rfl
      · exact absurd hb hcont
    right
    by_cases hpos : 0 < shares
    · cases hex : Exchange.from_symbol exs with
      | error e => simp [process_order, hcf, hpos, hex] at h
      | ok ex =>
        by_cases hup : to_uppercase symbol = symbol
        · simp only [process_order, hcf, Bool.false_eq_true, if_false, hpos, if_true, hex,
            hup, getKey?_insertKey_self] at h
          have hz : (Stock.calculate_order_metrics
              { symbol := symbol, exchange := ex, orders := [], price := 0 }).total_shares = 0 := by
            simp [Stock.calculate_order_metrics]
          rw [hz] at h
          have hn1 : ¬(shares < 0 ∧ (0 : ℤ) < |shares|) := fun hh => absurd hpos (by omega)
          have hn2 : ¬(shares < 0 ∧ (0 : ℤ) = |shares|) := fun hh => absurd hpos (by omega)
          simp only [hn1, if_false, hn2] at h
          simp [insertKey_insertKey] at h
          exact ⟨hcf, hpos, hup, ex, rfl, h.symm⟩
        · simp only [process_order, hcf, Bool.false_eq_true, if_false, hpos, if_true, hex,
            getKey?_insertKey_of_ne hup, getKey?_of_containsKey_false hcf] at h
          simp at h
    · simp [process_order, hcf, hpos] at h

/-- Forward run: a buy for a symbol not in the portfolio creates a fresh
position whose ledger is the single new order. -/
theorem process_order_run_new_buy {c : StockCollections} {symbol : String}
    {exs : Option String} {shares : ℤ} {price : ℚ} {ex : Exchange}
    (hcf : containsKey symbol c.portfolio = false)
    (hup : to_uppercase symbol = symbol)
    (hpos : 0 < shares)
    (hex : Exchange.from_symbol exs = .ok ex) :
    process_order c symbol exs shares price
      = some (.ok { c with
          portfolio := insertKey symbol
            { symbol := symbol, exchange := ex,
              orders := [{ shares := shares, share_price := price }], price := 0 }
            c.portfolio }) := by
  have hz : (Stock.calculate_order_metrics
      { symbol := symbol, exchange := ex, orders := [], price := 0 }).total_shares = 0 := by
    simp [Stock.calculate_order_metrics]
  have hn1 : ¬(shares < 0 ∧ (0 : ℤ) < |shares|) := fun hh => absurd hpos (by omega)
  have hn2 : ¬(shares < 0 ∧ (0 : ℤ) = |shares|) := fun hh => absurd hpos (by omega)
  simp only [process_order, hcf, Bool.false_eq_true, if_false, hpos, if_true, hex, hup,
    getKey?_insertKey_self, hz, hn1, hn2]
  simp [insertKey_insertKey]

/-- Forward run: a sell of exactly the held net share count moves the
position, with the sell appended, from the portfolio to the archive. -/
theorem process_order_run_zero_sell {c : StockCollections} {symbol : String}
    {exs : Option String} {shares : ℤ} {price : ℚ} {st : Stock}
    (hst : getKey? symbol c.portfolio = some st)
    (hneg : shares < 0)
    (heq : st.calculate_order_metrics.total_shares = |shares|) :
    process_order c symbol exs shares price
      = some (.ok { c with
          portfolio := removeKey symbol c.portfolio,
          archive := insertKey symbol
            { st with orders := st.orders ++ [{ shares := shares, share_price := price }] }
            c.archive }) := by
  have hcont : containsKey symbol c.portfolio = true := by simp [containsKey, hst]
  simp [process_order, hcont, hst, hneg, heq]

/-- The empty store satisfies the invariant. -/
theorem invariant_new : Invariant StockCollections.new := by
  simp [Invariant, StockCollections.new]

/-- A successful `process_order` preserves the store invariant. -/
theorem process_order_ok_invariant {c c' : StockCollections} {symbol : String}
    {exs : Option String} {shares : ℤ} {price : ℚ}
    (hinv : Invariant c)
    (h : process_order c symbol exs shares price = some (.ok c')) : Invariant c' := by
  obtain ⟨hp, ha, hw⟩ := hinv
  rcases process_order_ok_cases h with ⟨st, hst, hn1, hzero, helse⟩ | ⟨hcf, hpos, hup, ex, hex, rfl⟩
  · have hnet : 0 < (st.orders.map Order.shares).sum := hp (symbol, st) (getKey?_mem hst)
    by_cases h2 : shares < 0 ∧ st.calculate_order_metrics.total_shares = |shares|
    · obtain rfl := hzero h2
      refine ⟨fun p hpmem => hp p (mem_removeKey hpmem), ?_, hw⟩
      intro p hpmem
      rcases mem_insertKey hpmem with rfl | hold
      · have hsum : (st.orders.map Order.shares).sum = |shares| := by
          rw [← total_shares_eq_sum]; exact h2.2
        simp [List.map_append, hsum, abs_of_neg h2.1]
      · exact ha p hold
    · obtain rfl := helse h2
      refine ⟨?_, ha, hw⟩
      intro p hpmem
      rcases mem_insertKey hpmem with rfl | hold
      · have hsum : st.calculate_order_metrics.total_shares
            = (st.orders.map Order.shares).sum := total_shares_eq_sum st
        simp only [List.map_append, List.map_cons, List.map_nil, List.sum_append,
          List.sum_cons, List.sum_nil, add_zero]
        by_cases hneg : shares < 0
        · have hge : ¬ st.calculate_order_metrics.total_shares < |shares| :=
            fun hh => hn1 ⟨hneg, hh⟩
          have hne : st.calculate_order_metrics.total_shares ≠ |shares| :=
            fun hh => h2 ⟨hneg, hh⟩
          rw [hsum, abs_of_neg hneg] at hge hne
          omega
        · push_neg at hneg
          omega
      · exact hp p hold
  · refine ⟨?_, ha, hw⟩
    intro p hpmem
    rcases mem_insertKey hpmem with rfl | hold
    · simpa using hpos
    · exact hp p hold

/-- A successful `watch` preserves the store invariant. -/
theorem watch_ok_invariant {c c' : StockCollections} {symbol : String}
    {exs : Option String} {f : Except String Unit}
    (hinv : Invariant c) (h : watch c symbol exs f = .ok c') : Invariant c' := by
  obtain ⟨hp, ha, hw⟩ := hinv
  cases f with
  | error e => simp [watch] at h
  | ok u =>
    cases hex : Exchange.from_symbol exs with
    | error e => simp [watch, hex] at h
    | ok ex =>
      simp only [watch, hex] at h
      obtain rfl := (Except.ok.inj h).symm
      refine ⟨hp, ha, ?_⟩
      intro p hpmem
      rcases mem_insertKey hpmem with rfl | hold
      · rfl
      · exact hw p hold

/-! ## Claim theorems -/

/-- C1: `calculate_order_metrics` returns `total_spent` equal to the sum of
`shares * share_price` over buys, `total_sell` equal to the sum of
`|shares| * share_price` over sells, `total_shares` equal to the signed sum
of shares (hence permutation-independent), and
`average_price = total_spent / total_shares`; it is a pure, total function
of the order list. -/
theorem calculate_order_metrics_spec (s : Stock) :
    s.calculate_order_metrics.total_spent
        = ((s.orders.filter (fun x => 0 < x.shares)).map
            (fun x => (x.shares : ℚ) * x.share_price)).sum
    ∧ s.calculate_order_metrics.total_sell
        = ((s.orders.filter (fun x => x.shares < 0)).map
            (fun x => ((|x.shares| : ℤ) : ℚ) * x.share_price)).sum
    ∧ s.calculate_order_metrics.total_shares = (s.orders.map Order.shares).sum
    ∧ (∀ t : Stock, s.orders.Perm t.orders →
        s.calculate_order_metrics.total_shares = t.calculate_order_metrics.total_shares)
    ∧ s.calculate_order_metrics.average_price
        = s.calculate_order_metrics.total_spent / (s.calculate_order_metrics.total_shares : ℚ)
    ∧ ∀ t : Stock, s.orders = t.orders →
        s.calculate_order_metrics = t.calculate_order_metrics := by
  refine ⟨?_, ?_, ?_, ?_, rfl, ?_⟩
  · simp [Stock.calculate_order_metrics, foldl_add_map]
  · simp [Stock.calculate_order_metrics, foldl_add_map]
  · simp [Stock.calculate_order_metrics, foldl_add_map]
  · intro t hperm
    rw [total_shares_eq_sum, total_shares_eq_sum]
    exact (hperm.map Order.shares).sum_eq
  · intro t horders
    simp [Stock.calculate_order_metrics, horders]

theorem calculate_order_metrics_spec_witness :
    ({ symbol := "A", exchange := .NYSE,
       orders := [{ shares := 10, share_price := 5 }, { shares := -3, share_price := 2 }],
       price := 0 } : Stock).calculate_order_metrics.total_shares
      = ({ symbol := "A", exchange := .NYSE,
           orders := [{ shares := -3, share_price := 2 }, { shares := 10, share_price := 5 }],
           price := 0 } : Stock).calculate_order_metrics.total_shares :=
  (calculate_order_metrics_spec _).2.2.2.1 _ (List.Perm.swap _ _ _)

/-- C2: a sell whose magnitude strictly exceeds the pre-append net share
count — or a sell when the symbol is absent from the portfolio — makes
`process_order` fail with `InvalidShareQuantity(symbol, |shares|)`; the
error return happens before any mutation or `save_data`, so the store is
unmodified. -/
theorem process_order_oversell_rejected (c : StockCollections) (symbol : String)
    (exs : Option String) (shares : ℤ) (price : ℚ) (hneg : shares < 0) :
    (containsKey symbol c.portfolio = false →
      process_order c symbol exs shares price
        = some (.error (.invalidShareQuantity symbol shares.natAbs)))
    ∧ ∀ st : Stock, getKey? symbol c.portfolio = some st →
        st.calculate_order_metrics.total_shares < |shares| →
        process_order c symbol exs shares price
          = some (.error (.invalidShareQuantity symbol shares.natAbs)) := by
  constructor
  · intro hcf
    have h0 : ¬ (0 : ℤ) < shares := by omega
    simp [process_order, hcf, h0]
  · intro st hst hlt
    have hcont : containsKey symbol c.portfolio = true := by simp [containsKey, hst]
    simp [process_order, hcont, hst, hneg, hlt]

theorem process_order_oversell_rejected_witness :
    process_order StockCollections.new "A" none (-3) 10
      = some (.error (.invalidShareQuantity "A" 3)) :=
  (process_order_oversell_rejected StockCollections.new "A" none (-3) 10 (by decide)).1
    (by decide)

/-- C3: a sell of exactly the pre-append net share count removes the
position from the portfolio and inserts it, sell appended to the full
ledger, into the archive; any other successful order writes the appended
position back into the portfolio and leaves the archive alone. -/
theorem process_order_zero_sell_spec (c : StockCollections) (symbol : String)
    (exs : Option String) (shares : ℤ) (price : ℚ) (st : Stock)
    (hst : getKey? symbol c.portfolio = some st) :
    (shares < 0 → st.calculate_order_metrics.total_shares = |shares| →
      process_order c symbol exs shares price
        = some (.ok { c with
            portfolio := removeKey symbol c.portfolio,
            archive := insertKey symbol
              { st with orders := st.orders ++ [{ shares := shares, share_price := price }] }
              c.archive }))
    ∧ ∀ c' : StockCollections, process_order c symbol exs shares price = some (.ok c') →
        ¬(shares < 0 ∧ st.calculate_order_metrics.total_shares = |shares|) →
        c'.archive = c.archive
          ∧ c'.portfolio = insertKey symbol
              { st with orders := st.orders ++ [{ shares := shares, share_price := price }] }
              c.portfolio := by
  constructor
  · intro hneg heq
    exact process_order_run_zero_sell hst hneg heq
  · intro c' h hnz
    rcases process_order_ok_cases h with ⟨st2, hst2, hn1, hzero, helse⟩ | ⟨hcf, _, _, _, _, _⟩
    · rw [hst] at hst2
      obtain rfl := (Option.some.inj hst2).symm
      obtain rfl := helse hnz
      exact ⟨rfl, rfl⟩
    · rw [getKey?_of_containsKey_false hcf] at hst
      cases hst

theorem process_order_zero_sell_spec_witness :
    (process_order
        { portfolio :=
            [("X",
              { symbol := "X", exchange := .NYSE,
                orders := [{ shares := 10, share_price := 5 }], price := 0 })],
          watchlist := [], archive := [] } "X" none (-10) 8
      = some (.ok
          { portfolio := [], watchlist := [],
            archive :=
              [("X",
                { symbol := "X", exchange := .NYSE,
                  orders := [{ shares := 10, share_price := 5 },
                             { shares := -10, share_price := 8 }], price := 0 })] }))
    ∧ ({ symbol := "X", exchange := .NYSE,
         orders := [{ shares := 10, share_price := 5 },
                    { shares := -10, share_price := 8 }],
         price := 0 } : Stock).calculate_order_metrics.total_spent = 50
    ∧ ({ symbol := "X", exchange := .NYSE,
         orders := [{ shares := 10, share_price := 5 },
                    { shares := -10, share_price := 8 }],
         price := 0 } : Stock).calculate_order_metrics.total_sell = 80 :=
  ⟨(process_order_zero_sell_spec
      { portfolio :=
          [("X",
            { symbol := "X", exchange := .NYSE,
              orders := [{ shares := 10, share_price := 5 }], price := 0 })],
        watchlist := [], archive := [] }
      "X" none (-10) 8
      { symbol := "X", exchange := .NYSE,
        orders := [{ shares := 10, share_price := 5 }], price := 0 }
      rfl).1 (by decide) (by decide),
   by simp [Stock.calculate_order_metrics]; norm_num,
   by simp [Stock.calculate_order_metrics]; norm_num⟩

/-- C4: a buy for a symbol not in the portfolio creates a new Position with
empty order history, inserts it keyed by the uppercased symbol, and appends
the new order, so the resulting position's ledger is exactly that one
order. -/
theorem process_order_new_buy_spec (c : StockCollections) (symbol : String)
    (exs : Option String) (shares : ℤ) (price : ℚ) (ex : Exchange)
    (hcf : containsKey symbol c.portfolio = false)
    (hup : to_uppercase symbol = symbol)
    (hpos : 0 < shares)
    (hex : Exchange.from_symbol exs = .ok ex) :
    process_order c symbol exs shares price
      = some (.ok { c with
          portfolio := insertKey symbol
            { symbol := symbol, exchange := ex,
              orders := [{ shares := shares, share_price := price }], price := 0 }
            c.portfolio })
    ∧ getKey? symbol
        (insertKey symbol
          { symbol := symbol, exchange := ex,
            orders := [{ shares := shares, share_price := price }], price := 0 }
          c.portfolio)
      = some { symbol := symbol, exchange := ex,
               orders := [{ shares := shares, share_price := price }], price := 0 } :=
  ⟨process_order_run_new_buy hcf hup hpos hex, getKey?_insertKey_self _ _ _⟩

theorem process_order_new_buy_spec_witness :
    process_order StockCollections.new "AAPL" (some "tsx") 10 5
      = some (.ok
          { portfolio :=
              [("AAPL",
                { symbol := "AAPL", exchange := .TSX,
                  orders := [{ shares := 10, share_price := 5 }], price := 0 })],
            watchlist := [], archive := [] }) :=
  (process_order_new_buy_spec StockCollections.new "AAPL" (some "tsx") 10 5 .TSX
    (by decide) (by decide) (by decide) (by decide)).1

/-- C5: in every store reachable from the empty store by successful
`process_order` and `watch` commands, portfolio positions have a strictly
positive net share count, archived positions net to zero, and watchlist
positions have no orders. -/
theorem reachable_invariant (c : StockCollections) (h : Reachable c) : Invariant c := by
  induction h with
  | init => exact invariant_new
  | order _ hstep ih => exact process_order_ok_invariant ih hstep
  | watchStep _ hstep ih => exact watch_ok_invariant ih hstep

theorem reachable_invariant_witness : Invariant StockCollections.new :=
  reachable_invariant StockCollections.new Reachable.init

/-- C6: `calculate_stock_metrics` reads the second-to-last entry as
`close_yesterday` and the last as `close_today`, returning
`change = close_today - close_yesterday` and
`change_percentage = 100 * change / close_yesterday`; on
`[(d0, 100), (d1, 110)]` it yields change 10 and percentage 10, and with
fewer than two entries it fails (`none`) instead of defaulting. -/
theorem calculate_stock_metrics_spec :
    (∀ (l : List (String × ℚ)) (dy dt : String) (cy ct : ℚ),
      calculate_stock_metrics (l ++ [(dy, cy), (dt, ct)])
        = some { change := ct - cy, change_percentage := 100 * (ct - cy) / cy,
                 close_today := ct, close_yesterday := cy })
    ∧ (∀ l : List (String × ℚ), l.length < 2 → calculate_stock_metrics l = none)
    ∧ calculate_stock_metrics [("d0", 100), ("d1", 110)]
        = some { change := 10, change_percentage := 10,
                 close_today := 110, close_yesterday := 100 } := by
  refine ⟨?_, ?_, ?_⟩
  · intro l dy dt cy ct
    have hlen : (l ++ [(dy, cy), (dt, ct)]).length = l.length + 2 := by simp
    have hget1 : (l ++ [(dy, cy), (dt, ct)]).get? l.length = some (dy, cy) := by
      rw [List.get?_append_right (le_refl _)]
      simp
    have hget2 : (l ++ [(dy, cy), (dt, ct)]).get? (l.length + 1) = some (dt, ct) := by
      rw [List.get?_append_right (by omega)]
      simp
    have hnot : ¬ (l ++ [(dy, cy), (dt, ct)]).length < 2 := by rw [hlen]; omega
    have e1 : (l ++ [(dy, cy), (dt, ct)]).length - 2 = l.length := by rw [hlen]; omega
    have e2 : (l ++ [(dy, cy), (dt, ct)]).length - 1 = l.length + 1 := by rw [hlen]; omega
    rw [calculate_stock_metrics, if_neg hnot, e1, e2, hget1, hget2]
  · intro l hl
    simp [calculate_stock_metrics, hl]
  · simp [calculate_stock_metrics]
    norm_num

theorem calculate_stock_metrics_spec_witness :
    calculate_stock_metrics [("d0", (100 : ℚ))] = none :=
  calculate_stock_metrics_spec.2.1 _ (by decide)

/-- C7: `load_data` on a missing file succeeds with the empty-but-initialized
`StockCollections` (all three buckets present and empty); on a file whose
content fails to deserialize it fails with `ReadDataError`. -/
theorem load_data_spec (deserialize : String → Except String StockCollections) :
    (load_data none deserialize = .ok StockCollections.new
      ∧ StockCollections.new.portfolio = []
      ∧ StockCollections.new.watchlist = []
      ∧ StockCollections.new.archive = [])
    ∧ ∀ (contents e : String), deserialize contents = .error e →
        load_data (some contents) deserialize = .error (.readDataError e) := by
  refine ⟨⟨rfl, rfl, rfl, rfl⟩, ?_⟩
  intro contents e hd
  simp [load_data, hd]

theorem load_data_spec_witness :
    load_data (some "garbage") (fun _ => .error "parse failure")
      = .error (.readDataError "parse failure") :=
  (load_data_spec _).2 "garbage" "parse failure" rfl

/-- C8: `watch` first runs the quote fetch as a probe — on fetch failure it
aborts with `AlphaVantageError` and performs no mutation or save; on
success it inserts a fresh empty-order position into the watchlist keyed by
the uppercased symbol, overwriting any existing entry under that key, and
the store is saved. -/
theorem watch_spec (c : StockCollections) (symbol : String) (exs : Option String) :
    (∀ e : String, watch c symbol exs (.error e) = .error (.alphaVantageError e))
    ∧ ∀ ex : Exchange, Exchange.from_symbol exs = .ok ex →
        watch c symbol exs (.ok ())
          = .ok { c with
              watchlist := insertKey (to_uppercase symbol)
                { symbol := to_uppercase symbol, exchange := ex, orders := [], price := 0 }
                c.watchlist }
        ∧ getKey? (to_uppercase symbol)
            (insertKey (to_uppercase symbol)
              { symbol := to_uppercase symbol, exchange := ex, orders := [], price := 0 }
              c.watchlist)
          = some { symbol := to_uppercase symbol, exchange := ex, orders := [], price := 0 } := by
  constructor
  · intro e; rfl
  · intro ex hex
    exact ⟨by simp [watch, hex], getKey?_insertKey_self _ _ _⟩

theorem watch_spec_witness :
    watch
        { portfolio := [],
          watchlist :=
            [("W", { symbol := "W", exchange := .TSX, orders := [], price := 0 })],
          archive := [] }
        "w" none (.ok ())
      = .ok
          { portfolio := [],
            watchlist :=
              [("W", { symbol := "W", exchange := .NYSE, orders := [], price := 0 })],
            archive := [] } :=
  ((watch_spec
      { portfolio := [],
        watchlist :=
          [("W", { symbol := "W", exchange := .TSX, orders := [], price := 0 })],
        archive := [] }
      "w" none).2 .NYSE rfl).1

/-- C9: exchange-code resolution accepts, case-insensitively, exactly
`tsx` (suffix `.TO`, `Exchange::TSX`), `tsxv` (suffix `.V`,
`Exchange::TSXV`) and the misspelled `nsye` (no suffix, `Exchange::NYSE`);
everything else — including the correctly spelled `nyse` — fails with
`InvalidExchange`, and an omitted code resolves to `Exchange::NYSE` with no
suffix. -/
theorem exchange_resolution_spec :
    (∀ s : String,
      (∃ suf, suffix_for_exchange_symbol s = .ok suf)
        ↔ (to_lowercase s = "tsx" ∨ to_lowercase s = "tsxv" ∨ to_lowercase s = "nsye"))
    ∧ (∀ s : String,
      (∃ ex, Exchange.from_symbol (some s) = .ok ex)
        ↔ (to_lowercase s = "tsx" ∨ to_lowercase s = "tsxv" ∨ to_lowercase s = "nsye"))
    ∧ (∀ s : String,
        ¬(to_lowercase s = "tsx" ∨ to_lowercase s = "tsxv" ∨ to_lowercase s = "nsye") →
        suffix_for_exchange_symbol s = .error .invalidExchange
          ∧ Exchange.from_symbol (some s) = .error .invalidExchange)
    ∧ suffix_for_exchange_symbol "TSX" = .ok ".TO"
    ∧ Exchange.from_symbol (some "TSX") = .ok .TSX
    ∧ suffix_for_exchange_symbol "TsXv" = .ok ".V"
    ∧ Exchange.from_symbol (some "TsXv") = .ok .TSXV
    ∧ suffix_for_exchange_symbol "NsYe" = .ok ""
    ∧ Exchange.from_symbol (some "NsYe") = .ok .NYSE
    ∧ suffix_for_exchange_symbol "nyse" = .error .invalidExchange
    ∧ Exchange.from_symbol (some "nyse") = .error .invalidExchange
    ∧ Exchange.from_symbol none = .ok .NYSE
    ∧ resolve_symbol "ABC" none = .ok "ABC" := by
  refine ⟨?_, ?_, ?_, by decide, by decide, by decide, by decide, by decide, by decide,
    by decide, by decide, rfl, rfl⟩
  · intro s
    by_cases h1 : to_lowercase s = "tsx"
    · simp [suffix_for_exchange_symbol, h1]
    · by_cases h2 : to_lowercase s = "tsxv"
      · simp [suffix_for_exchange_symbol, h1, h2]
      · by_cases h3 : to_lowercase s = "nsye"
        · simp [suffix_for_exchange_symbol, h1, h2, h3]
        · simp [suffix_for_exchange_symbol, h1, h2, h3]
  · intro s
    by_cases h1 : to_lowercase s = "tsx"
    · simp [Exchange.from_symbol, h1]
    · by_cases h2 : to_lowercase s = "tsxv"
      · simp [Exchange.from_symbol, h1, h2]
      · by_cases h3 : to_lowercase s = "nsye"
        · simp [Exchange.from_symbol, h1, h2, h3]
        · simp [Exchange.from_symbol, h1, h2, h3]
  · intro s hs
    push_neg at hs
    obtain ⟨h1, h2, h3⟩ := hs
    exact ⟨by simp [suffix_for_exchange_symbol, h1, h2, h3],
      by simp [Exchange.from_symbol, h1, h2, h3]⟩

theorem exchange_resolution_spec_witness :
    suffix_for_exchange_symbol "abc" = .error .invalidExchange
      ∧ Exchange.from_symbol (some "abc") = .error .invalidExchange :=
  exchange_resolution_spec.2.2.1 "abc" (by decide)

/-- C10: `process_order` never modifies the watchlist, modifies the archive
only on an exact-zero sell, and a buy for a symbol absent from the
portfolio (e.g. present only in the archive) creates a brand-new portfolio
position whose ledger holds only the new order while the archive — and the
archived position's full ledger — is left unchanged. -/
theorem process_order_frame (c : StockCollections) (symbol : String)
    (exs : Option String) (shares : ℤ) (price : ℚ) :
    (∀ c' : StockCollections, process_order c symbol exs shares price = some (.ok c') →
      c'.watchlist = c.watchlist)
    ∧ (∀ c' : StockCollections, process_order c symbol exs shares price = some (.ok c') →
        ¬(shares < 0 ∧ ∃ st : Stock, getKey? symbol c.portfolio = some st ∧
            st.calculate_order_metrics.total_shares = |shares|) →
        c'.archive = c.archive)
    ∧ ∀ ex : Exchange, containsKey symbol c.portfolio = false →
        to_uppercase symbol = symbol → 0 < shares →
        Exchange.from_symbol exs = .ok ex →
        process_order c symbol exs shares price
          = some (.ok { c with
              portfolio := insertKey symbol
                { symbol := symbol, exchange := ex,
                  orders := [{ shares := shares, share_price := price }], price := 0 }
                c.portfolio }) := by
  refine ⟨?_, ?_, ?_⟩
  · intro c' h
    rcases process_order_ok_cases h with ⟨st, hst, hn1, hzero, helse⟩ | ⟨_, _, _, ex, hex, rfl⟩
    · by_cases h2 : shares < 0 ∧ st.calculate_order_metrics.total_shares = |shares|
      · obtain rfl := hzero h2; rfl
      · obtain rfl := helse h2; rfl
    · rfl
  · intro c' h hnz
    rcases process_order_ok_cases h with ⟨st, hst, hn1, hzero, helse⟩ | ⟨_, _, _, ex, hex, rfl⟩
    · have h2 : ¬(shares < 0 ∧ st.calculate_order_metrics.total_shares = |shares|) :=
        fun hh => hnz ⟨hh.1, st, hst, hh.2⟩
      obtain rfl := helse h2; rfl
    · rfl
  · intro ex hcf hup hpos hex
    exact process_order_run_new_buy hcf hup hpos hex

theorem process_order_frame_witness :
    process_order
        { portfolio := [], watchlist := [],
          archive :=
            [("B",
              { symbol := "B", exchange := .NYSE,
                orders := [{ shares := 5, share_price := 2 },
                           { shares := -5, share_price := 4 }], price := 0 })] }
        "B" none 3 7
      = some (.ok
          { portfolio :=
              [("B",
                { symbol := "B", exchange := .NYSE,
                  orders := [{ shares := 3, share_price := 7 }], price := 0 })],
            watchlist := [],
            archive :=
              [("B",
                { symbol := "B", exchange := .NYSE,
                  orders := [{ shares := 5, share_price := 2 },
                             { shares := -5, share_price := 4 }], price := 0 })] }) :=
  (process_order_frame
      { portfolio := [], watchlist := [],
        archive :=
          [("B",
            { symbol := "B", exchange := .NYSE,
              orders := [{ shares := 5, share_price := 2 },
                         { shares := -5, share_price := 4 }], price := 0 })] }
      "B" none 3 7).2.2 .NYSE (by decide) (by decide) (by decide) (by decide)

end Stocko
